import Mathlib

/-!
Verification development for the efficientdet-tf repository.

The geometry and bookkeeping code of three source files is embedded
shallowly:

- src/efficientdet/data/voc.py         (dataset pipeline)
- src/efficientdet/engine.py           (COCO evaluation boundary)
- src/efficientdet/models/efficientdet.py  (EfficientDet.call)

Boxes are modelled with rational coordinates; tensors become lists.
Helpers that the three files call but that are not among the sources
(normalize_bndboxes, regress_bndboxes, clip_boxes, nms, AnchorGenerator)
are modelled from the specification and carry a doc comment starting
with the words Modelled from the spec.
-/

namespace EffDet

/-- A bounding box in x1, y1, x2, y2 order, rational coordinates. -/
structure Box where
  x1 : ℚ
  y1 : ℚ
  x2 : ℚ
  y2 : ℚ
deriving DecidableEq, Repr

def zeroBox : Box := ⟨0, 0, 0, 0⟩

/-! ## voc.py -/

/-- The class-name table of voc.py (the bin-dataset variant that is
active in the source; the VOC list is commented out there). -/
def IDX_2_LABEL : List String := ["bin"]

/-- Lookup in the Python dict built by enumerate over IDX_2_LABEL.
A Python dict comprehension keeps the last binding of a repeated key,
hence getLast?. Returns none where Python would raise KeyError. -/
def LABEL_2_IDX (name : String) : Option Nat :=
  (IDX_2_LABEL.enum.filterMap
    (fun p => if p.2 = name then some p.1 else none)).getLast?

/-- One parsed object element of a VOC annotation file: class name and
integer corner coordinates, as read by _read_voc_annot. -/
structure VocObject where
  name : String
  xmin : Int
  ymin : Int
  xmax : Int
  ymax : Int
deriving DecidableEq, Repr

/-- Modelled from the spec: efficientdet.utils.bndbox.normalize_bndboxes,
called by _read_voc_annot, is not among the provided sources.  Per the
spec (section 4.1) normalize divides x coordinates by the image width and
y coordinates by the image height.  image_size is (height, width), the
order _read_voc_annot passes. -/
def normalize_bndboxes (boxes : List Box) (image_size : Nat × Nat) :
    List Box :=
  boxes.map (fun b =>
    ⟨b.x1 / (image_size.2 : ℚ), b.y1 / (image_size.1 : ℚ),
     b.x2 / (image_size.2 : ℚ), b.y2 / (image_size.1 : ℚ)⟩)

/-- Sequential fallible map, as the Python loop that appends one label
per object and aborts the whole read on the first failed lookup. -/
def mapOption {α β : Type} (f : α → Option β) : List α → Option (List β)
  | [] => some []
  | a :: l =>
      match f a, mapOption f l with
      | some b, some bs => some (b :: bs)
      | _, _ => none

/-- Embedding of _read_voc_annot after XML parsing: the file yields
image_size = (height, width) and a list of objects.  Labels come from
LABEL_2_IDX (none models the KeyError on an unknown class name); boxes
are stacked and normalized by the image size. -/
def _read_voc_annot (image_size : Nat × Nat) (objects : List VocObject) :
    Option (List Int × List Box) :=
  match mapOption (fun o => LABEL_2_IDX o.name) objects with
  | none => none
  | some idxs =>
      let bbs := objects.map (fun o =>
        (⟨(o.xmin : ℚ), (o.ymin : ℚ), (o.xmax : ℚ), (o.ymax : ℚ)⟩ : Box))
      some (idxs.map Int.ofNat, normalize_bndboxes bbs image_size)

/-- tf.concat of four coordinate columns back into rows of boxes
(the inverse of the tf.split in _scale_boxes). -/
def concatBoxes : List ℚ → List ℚ → List ℚ → List ℚ → List Box
  | x :: xs, y :: ys, z :: zs, w :: ws =>
      ⟨x, y, z, w⟩ :: concatBoxes xs ys zs ws
  | _, _, _, _ => []

/-- Embedding of _scale_boxes: to_size is (h, w); the box tensor is
split into its four coordinate columns, x columns are multiplied by w,
y columns by h, and the columns are concatenated back. -/
def _scale_boxes (labels : List Int) (boxes : List Box)
    (to_size : Nat × Nat) : List Int × List Box :=
  let h := (to_size.1 : ℚ)
  let w := (to_size.2 : ℚ)
  let c1 := (boxes.map Box.x1).map (fun v => v * w)
  let c2 := (boxes.map Box.x2).map (fun v => v * w)
  let r1 := (boxes.map Box.y1).map (fun v => v * h)
  let r2 := (boxes.map Box.y2).map (fun v => v * h)
  (labels, concatBoxes c1 r1 c2 r2)

/-- The per-image annotation path of build_dataset: _read_voc_annot
(inside the annotation generator) followed by the mapped
scale_boxes = partial(_scale_boxes, to_size=im_input_size). -/
def annotPipeline (im_input_size : Nat × Nat) (image_size : Nat × Nat)
    (objects : List VocObject) : Option (List Int × List Box) :=
  match _read_voc_annot image_size objects with
  | none => none
  | some (ls, bs) => some (_scale_boxes ls bs im_input_size)

/-- Length of the longest list of a batch, as padded_batch computes the
common padded shape of a ragged component. -/
def maxLen {α : Type} (l : List (List α)) : Nat :=
  l.foldr (fun xs m => max xs.length m) 0

/-- Pads a list on the right with copies of p to length n (no-op on
lists already at least that long). -/
def padTo {α : Type} (n : Nat) (p : α) (xs : List α) : List α :=
  xs ++ List.replicate (n - xs.length) p

/-- Embedding of the padded_batch step of build_dataset on the
annotation component: labels are padded with -1 and boxes with 0.0
(padding_values of build_dataset), each to the longest length found in
the batch for that component. -/
def padded_batch (batch : List (List Int × List Box)) :
    List (List Int × List Box) :=
  let nL := maxLen (batch.map (fun p => p.1))
  let nB := maxLen (batch.map (fun p => p.2))
  batch.map (fun p => (padTo nL (-1) p.1, padTo nB zeroBox p.2))

/-! ## engine.py: the COCO evaluation boundary -/

/-- One prediction record of the COCO result set built by _COCO_result:
bbox holds [x, y, w, h]. -/
structure COCOResult where
  image_id : Nat
  category_id : Int
  bbox : List ℚ
  score : ℚ
deriving DecidableEq, Repr

/-- One ground-truth record of the COCO annotation set built by
_COCO_gt_annot: bbox holds [x, y, w, h]. -/
structure COCOAnnot where
  id : Nat
  image_id : Nat
  bbox : List ℚ
  iscrowd : Nat
  area : ℚ
  category_id : Int
deriving DecidableEq, Repr

/-- The image record of a COCO ground-truth set. -/
structure COCOImage where
  id : Nat
  height : Nat
  width : Nat
deriving DecidableEq, Repr

/-- tf.transpose of four stacked coordinate columns: one
[x, y, w, h] row per position. -/
def transpose4 : List ℚ → List ℚ → List ℚ → List ℚ → List (List ℚ)
  | x :: xs, y :: ys, w :: ws, h :: hs =>
      [x, y, w, h] :: transpose4 xs ys ws hs
  | _, _, _, _ => []

/-- The tf.stack of x1, y1, width, height columns followed by
tf.transpose shared by _COCO_result and _COCO_gt_annot, yielding one
[x, y, w, h] row per box. -/
def cocoBboxes (bboxes : List Box) : List (List ℚ) :=
  let b_h := bboxes.map (fun b => b.y2 - b.y1)
  let b_w := bboxes.map (fun b => b.x2 - b.x1)
  transpose4 (bboxes.map Box.x1) (bboxes.map Box.y1) b_w b_h

/-- Embedding of _COCO_result.  Python zips labels, converted boxes and
scores (zip truncates at the shortest input, matching the model). -/
def _COCO_result (image_id : Nat) (labels : List Int)
    (bboxes : List Box) (scores : List ℚ) : List COCOResult :=
  (labels.zip ((cocoBboxes bboxes).zip scores)).map
    (fun p => ⟨image_id, p.1, p.2.1, p.2.2⟩)

/-- The indexed loop of _COCO_gt_annot: one record per row, ids counted
up from annot_id exactly as the Python loop increments it.  Each row is
(coco bbox, area, label). -/
def buildAnnots (image_id : Nat) : Nat → List (List ℚ × ℚ × Int) →
    List COCOAnnot
  | _, [] => []
  | annot_id, (cb, ar, l) :: rest =>
      ⟨annot_id, image_id, cb, 0, ar, l⟩ ::
        buildAnnots image_id (annot_id + 1) rest

/-- Embedding of _COCO_gt_annot: emits the image record and one
annotation record per box with consecutive ids from annot_id.  The
Python loop indexes labels by position; the zip model agrees with it
whenever labels and bboxes have equal length (Python raises IndexError
otherwise). -/
def _COCO_gt_annot (image_id annot_id : Nat) (image_shape : Nat × Nat)
    (labels : List Int) (bboxes : List Box) :
    COCOImage × List COCOAnnot :=
  let areas := bboxes.map (fun b => (b.y2 - b.y1) * (b.x2 - b.x1))
  let rows := (cocoBboxes bboxes).zip (areas.zip labels)
  (⟨image_id, image_shape.1, image_shape.2⟩,
   buildAnnots image_id annot_id rows)

/-- tf.boolean_mask on one axis: keeps the entries whose mask bit is
true (mask and data are aligned positionally). -/
def booleanMask {α : Type} (xs : List α) (mask : List Bool) : List α :=
  (xs.zip mask).filterMap (fun p => if p.2 then some p.1 else none)

/-- What evaluate sees for one image of the dataset: its padded ground
truth and the model detections for it (the model output for this batch
element). -/
structure ImageRecord where
  gt_labels : List Int
  gt_boxes : List Box
  pred_labels : List Int
  pred_boxes : List Box
  pred_scores : List ℚ
deriving DecidableEq, Repr

/-- The accumulator state of the evaluation loop. -/
structure EvalState where
  gt_images : List COCOImage
  gt_annots : List COCOAnnot
  results : List COCOResult
  image_id : Nat
  annot_id : Nat
deriving DecidableEq, Repr

/-- The body of the per-image loop of evaluate: mask out padded ground
truth (label -1), build the COCO ground-truth records, and append
prediction records only when the image has at least one detection;
image_id advances by one and annot_id by the number of annotation
records emitted. -/
def processImage (shape : Nat × Nat) (st : EvalState)
    (r : ImageRecord) : EvalState :=
  let mask := r.gt_labels.map (fun l => decide (l ≠ -1))
  let gl := booleanMask r.gt_labels mask
  let gb := booleanMask r.gt_boxes mask
  let ia := _COCO_gt_annot st.image_id st.annot_id shape gl gb
  let newResults :=
    if 0 < r.pred_labels.length then
      _COCO_result st.image_id r.pred_labels r.pred_boxes r.pred_scores
    else []
  ⟨st.gt_images ++ [ia.1], st.gt_annots ++ ia.2,
   st.results ++ newResults,
   st.image_id + 1, st.annot_id + ia.2.length⟩

/-- The initial accumulator of evaluate: image_id = 1, annot_id = 1,
empty record sets. -/
def initState : EvalState := ⟨[], [], [], 1, 1⟩

/-- The accumulation phase of evaluate over the flattened stream of
per-image records (the code iterates batches and then batch elements;
the flat list is that same order). -/
def evaluateLoop (shape : Nat × Nat) (recs : List ImageRecord) :
    EvalState :=
  recs.foldl (processImage shape) initState

/-! ## models/efficientdet.py: EfficientDet.call -/

/-- One per-anchor regression output (dx, dy, dw, dh). -/
structure Delta where
  dx : ℚ
  dy : ℚ
  dw : ℚ
  dh : ℚ
deriving DecidableEq, Repr

/-- Modelled from the spec: efficientdet.utils.anchors.AnchorGenerator is
not among the provided sources.  Per spec section 4.2 a generator is a
fixed (base size, aspect ratios, stride) triple. -/
structure AnchorGenerator where
  size : ℚ
  aspect_ratios : List ℚ
  stride : ℚ
deriving DecidableEq, Repr

/-- Modelled from the spec: anchor generation for one pyramid level
(spec section 4.2).  For each cell of the H by W grid, centered at
stride times (index plus one half), one anchor per aspect ratio with
width size times sqrt ratio and height size divided by sqrt ratio,
row-major over cells then ratio index.  The square root is passed in as
a function argument since the coordinates are rational. -/
def AnchorGenerator.generate (g : AnchorGenerator) (sq : ℚ → ℚ)
    (shape : Nat × Nat) : List Box :=
  (List.range shape.1).flatMap (fun i =>
    (List.range shape.2).flatMap (fun j =>
      g.aspect_ratios.map (fun r =>
        let cx := g.stride * ((j : ℚ) + 1/2)
        let cy := g.stride * ((i : ℚ) + 1/2)
        let w := g.size * sq r
        let h := g.size / sq r
        ⟨cx - w / 2, cy - h / 2, cx + w / 2, cy + h / 2⟩)))

/-- The anchors_gen list built in EfficientDet.__init__: one generator
per pyramid level i in 3..7, taking size and stride at position i - 3
of the configured lists and sharing the configured ratios. -/
def anchors_gen (sizes ratios strides : List ℚ) : List AnchorGenerator :=
  (List.range' 3 5).map
    (fun i => ⟨sizes.getD (i - 3) 0, ratios, strides.getD (i - 3) 0⟩)

/-- The anchor construction of the inference branch of
EfficientDet.call: each generator is applied to the spatial shape of
its feature level and the five lists are concatenated along axis 0. -/
def callAnchors (sq : ℚ → ℚ) (sizes ratios strides : List ℚ)
    (featShapes : List (Nat × Nat)) : List Box :=
  (((anchors_gen sizes ratios strides).zip featShapes).map
    (fun p => p.1.generate sq p.2)).flatten

/-- The tf.tile step of EfficientDet.call: the single-image anchor list
expanded along a new batch axis, one copy per batch element. -/
def callTiledAnchors (sq : ℚ → ℚ) (sizes ratios strides : List ℚ)
    (featShapes : List (Nat × Nat)) (batch : Nat) : List (List Box) :=
  List.replicate batch (callAnchors sq sizes ratios strides featShapes)

/-- Modelled from the spec: efficientdet.utils.bndbox.regress_bndboxes
(the decoder) is not among the provided sources.  Per spec section 4.4,
decode reconstructs the box center as delta times anchor size plus
anchor center and the box size as exp delta times anchor size; exp is
passed in as a function argument since the coordinates are rational. -/
def regress_bndboxes (expQ : ℚ → ℚ) (anchors : List Box)
    (deltas : List Delta) : List Box :=
  List.zipWith (fun a d =>
    let aw := a.x2 - a.x1
    let ah := a.y2 - a.y1
    let acx := (a.x1 + a.x2) / 2
    let acy := (a.y1 + a.y2) / 2
    let cx := d.dx * aw + acx
    let cy := d.dy * ah + acy
    let w := expQ d.dw * aw
    let h := expQ d.dh * ah
    (⟨cx - w / 2, cy - h / 2, cx + w / 2, cy + h / 2⟩ : Box))
    anchors deltas

/-- Modelled from the spec: efficientdet.utils.bndbox.clip_boxes is not
among the provided sources.  Per spec section 4.1, clip clamps every
coordinate into [0, width] or [0, height]; image_size is (h, w), the
images.shape[1:3] slice EfficientDet.call passes. -/
def clip_boxes (boxes : List Box) (image_size : Nat × Nat) : List Box :=
  let h := (image_size.1 : ℚ)
  let w := (image_size.2 : ℚ)
  boxes.map (fun b =>
    ⟨min (max b.x1 0) w, min (max b.y1 0) h,
     min (max b.x2 0) w, min (max b.y2 0) h⟩)

/-- Pairwise intersection over union of two boxes; zero-union pairs
yield 0 (spec section 4.1). -/
def iou (a b : Box) : ℚ :=
  let iw := max (min a.x2 b.x2 - max a.x1 b.x1) 0
  let ih := max (min a.y2 b.y2 - max a.y1 b.y1) 0
  let inter := iw * ih
  let u := (a.x2 - a.x1) * (a.y2 - a.y1) +
           (b.x2 - b.x1) * (b.y2 - b.y1) - inter
  if u = 0 then 0 else inter / u

/-- Insertion step of the score-descending sort used before greedy
suppression. -/
def insertByScore (c : Box × ℚ) : List (Box × ℚ) → List (Box × ℚ)
  | [] => [c]
  | d :: rest =>
      if d.2 ≤ c.2 then c :: d :: rest else d :: insertByScore c rest

/-- Sorts candidates by descending score. -/
def sortByScoreDesc (l : List (Box × ℚ)) : List (Box × ℚ) :=
  l.foldr insertByScore []

/-- Greedy suppression: keep the best remaining candidate, drop every
later candidate overlapping it above the threshold, repeat. -/
def nmsGreedy (iou_thr : ℚ) : List (Box × ℚ) → List (Box × ℚ)
  | [] => []
  | c :: rest =>
      c :: nmsGreedy iou_thr
        (rest.filter (fun d => decide (iou c.1 d.1 ≤ iou_thr)))
termination_by l => l.length
decreasing_by
  simp only [List.length_cons]
  exact Nat.lt_succ_of_le (List.length_filter_le _ _)

/-- One class of the NMS filter: confidence thresholding, sort by
descending score, then greedy suppression (spec section 4.5). -/
def nmsClass (iou_thr score_thr : ℚ) (cands : List (Box × ℚ)) :
    List (Box × ℚ) :=
  nmsGreedy iou_thr
    (sortByScoreDesc (cands.filter (fun c => decide (score_thr ≤ c.2))))

/-- Modelled from the spec: efficientdet.utils.bndbox.nms is not among
the provided sources.  Per spec section 4.5 it runs per class
independently over the decoded boxes and per-class scores of one image
and returns the surviving (boxes, labels, scores) triple. -/
def nms (iou_thr score_thr : ℚ) (num_classes : Nat) (boxes : List Box)
    (class_scores : List (List ℚ)) : List Box × List Int × List ℚ :=
  let dets := (List.range num_classes).flatMap (fun c =>
    let cands := (boxes.zip class_scores).filterMap
      (fun p => (p.2.get? c).map (fun s => (p.1, s)))
    (nmsClass iou_thr score_thr cands).map
      (fun d => (d.1, (c : Int), d.2)))
  (dets.map (fun d => d.1), dets.map (fun d => d.2.1),
   dets.map (fun d => d.2.2))

/-- The two shapes EfficientDet.call returns: raw per-level head
outputs while training, per-image detection triples at inference. -/
inductive CallOut where
  | train : List (List Delta) → List (List (List ℚ)) → CallOut
  | infer : List (List Box × List Int × List ℚ) → CallOut
deriving DecidableEq

/-- Embedding of EfficientDet.call.  The backbone, neck and heads are
external collaborators; their outputs enter as arguments, batch-major:
headDeltas and headScores give, per batch element and per pyramid
level, the per-anchor regression deltas and per-class scores.  The
tf.concat along the anchor axis is the per-element join.  While
training the concatenated raw outputs are returned; at inference the
anchors are generated from the feature shapes, tiled over the batch,
the deltas are decoded against them, the decoded boxes are clipped to
the image bounds and NMS produces the detections. -/
def EfficientDet_call (expQ sq : ℚ → ℚ) (sizes ratios strides : List ℚ)
    (iou_thr score_thr : ℚ) (num_classes : Nat) (training : Bool)
    (featShapes : List (Nat × Nat))
    (headDeltas : List (List (List Delta)))
    (headScores : List (List (List (List ℚ))))
    (imageSize : Nat × Nat) : CallOut :=
  let bboxes := headDeltas.map List.flatten
  let class_scores := headScores.map List.flatten
  if training then CallOut.train bboxes class_scores
  else
    let anchorsT := callTiledAnchors sq sizes ratios strides featShapes
      bboxes.length
    let decoded := List.zipWith (regress_bndboxes expQ) anchorsT bboxes
    let clipped := decoded.map (fun bl => clip_boxes bl imageSize)
    CallOut.infer (List.zipWith
      (fun bl sl => nms iou_thr score_thr num_classes bl sl)
      clipped class_scores)

/-! ## Helper lemmas -/

/-- Splitting a box list into scaled coordinate columns and zipping the
columns back is the componentwise scaling map. -/
lemma concatBoxes_scale (h w : ℚ) : ∀ (boxes : List Box),
    concatBoxes ((boxes.map Box.x1).map (fun v => v * w))
      ((boxes.map Box.y1).map (fun v => v * h))
      ((boxes.map Box.x2).map (fun v => v * w))
      ((boxes.map Box.y2).map (fun v => v * h)) =
    boxes.map (fun b => ⟨b.x1 * w, b.y1 * h, b.x2 * w, b.y2 * h⟩)
  | [] => rfl
  | b :: rest => by
      simp only [List.map_cons, concatBoxes]
      exact congrArg _ (concatBoxes_scale h w rest)

/-- The stack-and-transpose of _COCO_result and _COCO_gt_annot is the
per-box conversion to [x, y, width, height]. -/
lemma cocoBboxes_eq_map : ∀ (bboxes : List Box),
    cocoBboxes bboxes =
      bboxes.map (fun b => [b.x1, b.y1, b.x2 - b.x1, b.y2 - b.y1])
  | [] => rfl
  | b :: rest => by
      simp only [cocoBboxes, List.map_cons, transpose4, List.cons.injEq]
      exact ⟨trivial, cocoBboxes_eq_map rest⟩

/-- Projecting the middle component out of a three-way zip of
equal-length lists recovers the middle list. -/
lemma zip3_map_middle {α β γ : Type} : ∀ (as : List α) (bs : List β)
    (cs : List γ), as.length = bs.length → cs.length = bs.length →
    (as.zip (bs.zip cs)).map (fun p => p.2.1) = bs
  | [], [], _, _, _ => rfl
  | [], b :: _, _, h, _ => by simp at h
  | _ :: _, [], _, h, _ => by simp at h
  | _ :: _, _ :: _, [], _, h => by simp at h
  | a :: as, b :: bs, c :: cs, h1, h2 => by
      simp only [List.zip_cons_cons, List.map_cons, List.cons.injEq]
      refine ⟨trivial, zip3_map_middle as bs cs ?_ ?_⟩
      · simpa using h1
      · simpa using h2

/-- The bbox field of the records built by the annotation loop is the
first row component. -/
lemma buildAnnots_map_bbox (image_id : Nat) :
    ∀ (annot_id : Nat) (rows : List (List ℚ × ℚ × Int)),
    (buildAnnots image_id annot_id rows).map (fun a => a.bbox) =
      rows.map (fun r => r.1)
  | _, [] => rfl
  | annot_id, (cb, ar, l) :: rest => by
      simp only [buildAnnots, List.map_cons, List.cons.injEq]
      exact ⟨trivial, buildAnnots_map_bbox image_id (annot_id + 1) rest⟩

/-! ## Claims -/

/-- C7: for every (labels, boxes, to_size) input, _scale_boxes
multiplies the x1 and x2 coordinates of every box by the target width
and the y1 and y2 coordinates by the target height, componentwise, and
returns the labels unchanged. -/
theorem scale_boxes_componentwise (labels : List Int) (boxes : List Box)
    (to_size : Nat × Nat) :
    _scale_boxes labels boxes to_size =
      (labels, boxes.map (fun b =>
        ⟨b.x1 * (to_size.2 : ℚ), b.y1 * (to_size.1 : ℚ),
         b.x2 * (to_size.2 : ℚ), b.y2 * (to_size.1 : ℚ)⟩)) := by
  simp only [_scale_boxes]
  exact congrArg _ (concatBoxes_scale _ _ boxes)

/-- C2: for every detection record and every ground-truth record
emitted at the evaluation boundary, the internal (x1, y1, x2, y2) box
is converted to the COCO bbox [x1, y1, x2 - x1, y2 - y1]; the
conversion happens inside the boundary functions _COCO_result and
_COCO_gt_annot. -/
theorem coco_boundary_bbox_conversion (image_id annot_id : Nat)
    (shape : Nat × Nat) (labels : List Int) (bboxes : List Box)
    (scores : List ℚ) (h1 : labels.length = bboxes.length)
    (h2 : scores.length = bboxes.length) :
    (_COCO_result image_id labels bboxes scores).map (fun r => r.bbox) =
      bboxes.map (fun b => [b.x1, b.y1, b.x2 - b.x1, b.y2 - b.y1]) ∧
    ((_COCO_gt_annot image_id annot_id shape labels bboxes).2).map
        (fun a => a.bbox) =
      bboxes.map (fun b => [b.x1, b.y1, b.x2 - b.x1, b.y2 - b.y1]) := by
  have hlen : (cocoBboxes bboxes).length = bboxes.length := by
    rw [cocoBboxes_eq_map]; simp
  constructor
  · have := zip3_map_middle labels (cocoBboxes bboxes) scores
      (by rw [hlen, h1]) (by rw [hlen, h2])
    calc (_COCO_result image_id labels bboxes scores).map
          (fun r => r.bbox)
        = (labels.zip ((cocoBboxes bboxes).zip scores)).map
            (fun p => p.2.1) := by
          simp [_COCO_result]
      _ = cocoBboxes bboxes := this
      _ = bboxes.map (fun b => [b.x1, b.y1, b.x2 - b.x1, b.y2 - b.y1]) :=
          cocoBboxes_eq_map bboxes
  · have hareas : (bboxes.map
        (fun b => (b.y2 - b.y1) * (b.x2 - b.x1))).length =
        bboxes.length := by simp
    calc ((_COCO_gt_annot image_id annot_id shape labels bboxes).2).map
          (fun a => a.bbox)
        = ((cocoBboxes bboxes).zip
            ((bboxes.map (fun b => (b.y2 - b.y1) * (b.x2 - b.x1))).zip
              labels)).map (fun r => r.1) := by
          simp [_COCO_gt_annot, buildAnnots_map_bbox]
      _ = cocoBboxes bboxes := by
          apply List.map_fst_zip
          simp [hlen, ← h1]
      _ = bboxes.map (fun b => [b.x1, b.y1, b.x2 - b.x1, b.y2 - b.y1]) :=
          cocoBboxes_eq_map bboxes

/-- Witness for C2 at a concrete input: one label, one box, one
score. -/
theorem coco_boundary_bbox_conversion_witness :
    ([(2 : Int)]).length = ([(⟨1, 2, 4, 7⟩ : Box)]).length ∧
    ([(1/2 : ℚ)]).length = ([(⟨1, 2, 4, 7⟩ : Box)]).length ∧
    ((_COCO_result 5 [2] [⟨1, 2, 4, 7⟩] [1/2]).map (fun r => r.bbox) =
      ([(⟨1, 2, 4, 7⟩ : Box)]).map
        (fun b => [b.x1, b.y1, b.x2 - b.x1, b.y2 - b.y1]) ∧
    ((_COCO_gt_annot 5 9 (7, 7) [2] [⟨1, 2, 4, 7⟩]).2).map
        (fun a => a.bbox) =
      ([(⟨1, 2, 4, 7⟩ : Box)]).map
        (fun b => [b.x1, b.y1, b.x2 - b.x1, b.y2 - b.y1])) :=
  ⟨rfl, rfl,
   coco_boundary_bbox_conversion 5 9 (7, 7) [2] [⟨1, 2, 4, 7⟩] [1/2]
     rfl rfl⟩

/-- Closed form of the dict lookup for the concrete one-entry class
table of voc.py. -/
lemma LABEL_2_IDX_eq (name : String) :
    LABEL_2_IDX name = if "bin" = name then some 0 else none := by
  have h1 : IDX_2_LABEL.enum = [(0, "bin")] := rfl
  by_cases hb : "bin" = name
  · subst hb
    rfl
  · simp only [LABEL_2_IDX, h1, List.filterMap_cons, List.filterMap_nil,
      if_neg hb]
    rfl

/-- A successful class-name lookup yields an index below the table
length. -/
lemma LABEL_2_IDX_lt (name : String) (k : Nat)
    (h : LABEL_2_IDX name = some k) : k < IDX_2_LABEL.length := by
  rw [LABEL_2_IDX_eq] at h
  by_cases hb : "bin" = name
  · rw [if_pos hb] at h
    cases h
    decide
  · rw [if_neg hb] at h
    cases h

/-- Every element of a successful mapOption output is the image of a
list element. -/
lemma mapOption_mem {α β : Type} (f : α → Option β) :
    ∀ (l : List α) (ys : List β), mapOption f l = some ys →
    ∀ y ∈ ys, ∃ x, x ∈ l ∧ f x = some y := by
  intro l
  induction l with
  | nil =>
      intro ys h y hy
      simp only [mapOption] at h
      cases h
      simp at hy
  | cons a l ih =>
      intro ys h y hy
      simp only [mapOption] at h
      cases hfa : f a with
      | none => rw [hfa] at h; simp at h
      | some b =>
          rw [hfa] at h
          cases hml : mapOption f l with
          | none => rw [hml] at h; simp at h
          | some bs =>
              rw [hml] at h
              simp only [Option.some.injEq] at h
              cases h
              rcases List.mem_cons.mp hy with hyb | hybs
              · exact ⟨a, List.mem_cons_self a l, hyb ▸ hfa⟩
              · rcases ih bs hml y hybs with ⟨x, hx, hfx⟩
                exact ⟨x, List.mem_cons_of_mem a hx, hfx⟩

/-- C10: LABEL_2_IDX is the positional inverse of IDX_2_LABEL, and
_read_voc_annot labels every object through this table, so every label
it emits for a real object lies in [0, number of classes). -/
theorem label_table_inverse_and_range :
    (∀ (i : Nat) (h : i < IDX_2_LABEL.length),
      LABEL_2_IDX (IDX_2_LABEL.get ⟨i, h⟩) = some i) ∧
    (∀ (image_size : Nat × Nat) (objects : List VocObject)
      (labels : List Int) (bbs : List Box),
      _read_voc_annot image_size objects = some (labels, bbs) →
      ∀ l ∈ labels, 0 ≤ l ∧ l < (IDX_2_LABEL.length : Int)) := by
  constructor
  · intro i h
    have hi : i = 0 := by
      have : i < 1 := h
      omega
    subst hi
    show LABEL_2_IDX "bin" = some 0
    decide
  · intro image_size objects labels bbs h l hl
    unfold _read_voc_annot at h
    cases hm : mapOption (fun o => LABEL_2_IDX o.name) objects with
    | none => rw [hm] at h; cases h
    | some idxs =>
        rw [hm] at h
        simp only [Option.some.injEq, Prod.mk.injEq] at h
        rcases h with ⟨hlab, _⟩
        subst hlab
        rcases List.mem_map.mp hl with ⟨k, hk, hkl⟩
        rcases mapOption_mem _ objects idxs hm k hk with ⟨o, _, ho⟩
        have hklt : k < IDX_2_LABEL.length := LABEL_2_IDX_lt o.name k ho
        subst hkl

        constructor
        · exact Int.ofNat_nonneg k
        · exact Int.ofNat_lt.mpr hklt

/-- Witness for C10: the table entry 0 maps back to index 0, and the
label emitted for one bin object is in range. -/
theorem label_table_inverse_and_range_witness :
    LABEL_2_IDX "bin" = some 0 ∧
    (0 ≤ (0 : Int) ∧ (0 : Int) < (IDX_2_LABEL.length : Int)) := by
  have h0 : 0 < IDX_2_LABEL.length := by decide
  have h1 := label_table_inverse_and_range.1 0 h0
  refine ⟨h1, ?_⟩
  refine label_table_inverse_and_range.2 (1, 1) [⟨"bin", 0, 0, 1, 1⟩]
    [0] [⟨0, 0, 1, 1⟩] ?_ 0 (by decide)
  simp [_read_voc_annot, mapOption, normalize_bndboxes, LABEL_2_IDX_eq]

/-- A coordinate normalized by c and rescaled by t stays within
[0, t]. -/
lemma scaled_coord_bounds (a c t : ℚ) (h0 : 0 ≤ a) (h1 : a ≤ c)
    (hc : 0 < c) (ht : 0 ≤ t) : 0 ≤ a / c * t ∧ a / c * t ≤ t := by
  constructor
  · exact mul_nonneg (div_nonneg h0 hc.le) ht
  · calc a / c * t ≤ 1 * t :=
        mul_le_mul_of_nonneg_right ((div_le_one hc).mpr h1) ht
    _ = t := one_mul t

/-- Concrete run of the dataset annotation path: a 100 by 100 source
image with one bin object at (50, 50, 100, 100), resized to 128 by 128,
yields the box (64, 64, 128, 128). -/
lemma annotPipeline_example :
    annotPipeline (128, 128) (100, 100) [⟨"bin", 50, 50, 100, 100⟩] =
      some ([0], [⟨64, 64, 128, 128⟩]) := by
  have h1 : _read_voc_annot (100, 100) [⟨"bin", 50, 50, 100, 100⟩] =
      some ([0], [⟨1/2, 1/2, 1, 1⟩]) := by
    simp only [_read_voc_annot, mapOption, LABEL_2_IDX_eq,
      normalize_bndboxes, List.map_cons, List.map_nil]
    norm_num
  simp only [annotPipeline, h1, _scale_boxes, List.map_cons,
    List.map_nil, concatBoxes]
  norm_num

/-- C1 counterexample: the dataset pipeline does not supply boxes in
normalized fractions; for a 100 by 100 source image resized to 128 by
128 it emits a box with coordinate 64, which exceeds 1. -/
theorem dataset_boxes_normalized_cex :
    annotPipeline (128, 128) (100, 100) [⟨"bin", 50, 50, 100, 100⟩] =
      some ([0], [⟨64, 64, 128, 128⟩]) ∧ ¬ ((64 : ℚ) ≤ 1) :=
  ⟨annotPipeline_example, by norm_num⟩

/-- C1 amended: boxes emitted by the dataset pipeline are the
normalized-fraction boxes rescaled to absolute pixel coordinates of the
model input size, so with object coordinates inside a positive source
image every emitted coordinate lies in [0, input width] respectively
[0, input height] rather than in [0, 1]. -/
theorem dataset_boxes_absolute_pixel
    (im_in : Nat × Nat) (H W : Nat) (objects : List VocObject)
    (ls : List Int) (bs : List Box) (hH : 0 < H) (hW : 0 < W)
    (hvalid : ∀ o ∈ objects,
      0 ≤ o.xmin ∧ o.xmin ≤ (W : Int) ∧ 0 ≤ o.xmax ∧ o.xmax ≤ (W : Int) ∧
      0 ≤ o.ymin ∧ o.ymin ≤ (H : Int) ∧ 0 ≤ o.ymax ∧ o.ymax ≤ (H : Int))
    (hp : annotPipeline im_in (H, W) objects = some (ls, bs)) :
    ∀ b ∈ bs,
      (0 ≤ b.x1 ∧ b.x1 ≤ (im_in.2 : ℚ)) ∧
      (0 ≤ b.y1 ∧ b.y1 ≤ (im_in.1 : ℚ)) ∧
      (0 ≤ b.x2 ∧ b.x2 ≤ (im_in.2 : ℚ)) ∧
      (0 ≤ b.y2 ∧ b.y2 ≤ (im_in.1 : ℚ)) := by
  unfold annotPipeline at hp
  cases hr : _read_voc_annot (H, W) objects with
  | none => rw [hr] at hp; cases hp
  | some p =>
      obtain ⟨ls0, bs0⟩ := p
      rw [hr] at hp
      dsimp only at hp
      have hsc : _scale_boxes ls0 bs0 im_in =
          (ls0, bs0.map (fun b =>
            ⟨b.x1 * (im_in.2 : ℚ), b.y1 * (im_in.1 : ℚ),
             b.x2 * (im_in.2 : ℚ), b.y2 * (im_in.1 : ℚ)⟩)) := by
        simp only [_scale_boxes]
        exact congrArg _ (concatBoxes_scale _ _ bs0)
      rw [hsc] at hp
      simp only [Option.some.injEq, Prod.mk.injEq] at hp
      obtain ⟨-, hbs⟩ := hp
      unfold _read_voc_annot at hr
      cases hm : mapOption (fun o => LABEL_2_IDX o.name) objects with
      | none => rw [hm] at hr; cases hr
      | some idxs =>
          rw [hm] at hr
          simp only [Option.some.injEq, Prod.mk.injEq] at hr
          obtain ⟨-, hbs0⟩ := hr
          subst hbs0
          subst hbs
          intro b hb
          simp only [normalize_bndboxes, List.map_map, List.mem_map,
            Function.comp] at hb
          obtain ⟨o, ho, rfl⟩ := hb
          obtain ⟨hx1a, hx1b, hx2a, hx2b, hy1a, hy1b, hy2a, hy2b⟩ :=
            hvalid o ho
          have hWq : (0 : ℚ) < ((W : Nat) : ℚ) := by
            exact_mod_cast hW
          have hHq : (0 : ℚ) < ((H : Nat) : ℚ) := by
            exact_mod_cast hH
          have htw : (0 : ℚ) ≤ (im_in.2 : ℚ) := Nat.cast_nonneg _
          have hth : (0 : ℚ) ≤ (im_in.1 : ℚ) := Nat.cast_nonneg _
          refine ⟨?_, ?_, ?_, ?_⟩
          · exact scaled_coord_bounds _ _ _
              (by exact_mod_cast hx1a) (by exact_mod_cast hx1b) hWq htw
          · exact scaled_coord_bounds _ _ _
              (by exact_mod_cast hy1a) (by exact_mod_cast hy1b) hHq hth
          · exact scaled_coord_bounds _ _ _
              (by exact_mod_cast hx2a) (by exact_mod_cast hx2b) hWq htw
          · exact scaled_coord_bounds _ _ _
              (by exact_mod_cast hy2a) (by exact_mod_cast hy2b) hHq hth

/-- Witness for the amended C1 at the concrete pipeline run: the
emitted box (64, 64, 128, 128) lies within [0, 128] on both axes. -/
theorem dataset_boxes_absolute_pixel_witness :
    0 < 100 ∧
    annotPipeline (128, 128) (100, 100) [⟨"bin", 50, 50, 100, 100⟩] =
      some ([0], [⟨64, 64, 128, 128⟩]) ∧
    ((0 ≤ (64 : ℚ) ∧ (64 : ℚ) ≤ ((128 : Nat) : ℚ)) ∧
     (0 ≤ (64 : ℚ) ∧ (64 : ℚ) ≤ ((128 : Nat) : ℚ)) ∧
     (0 ≤ (128 : ℚ) ∧ (128 : ℚ) ≤ ((128 : Nat) : ℚ)) ∧
     (0 ≤ (128 : ℚ) ∧ (128 : ℚ) ≤ ((128 : Nat) : ℚ))) := by
  refine ⟨by decide, annotPipeline_example, ?_⟩
  exact dataset_boxes_absolute_pixel (128, 128) 100 100
    [⟨"bin", 50, 50, 100, 100⟩] [0] [⟨64, 64, 128, 128⟩]
    (by decide) (by decide) (by decide) annotPipeline_example
    ⟨64, 64, 128, 128⟩ (by simp)

/-- Every list of a batch is at most as long as the batch maximum. -/
lemma mem_le_maxLen {α : Type} :
    ∀ (l : List (List α)) (xs : List α), xs ∈ l →
      xs.length ≤ maxLen l := by
  intro l
  induction l with
  | nil => intro xs h; simp at h
  | cons a l ih =>
      intro xs h
      rcases List.mem_cons.mp h with rfl | hmem
      · exact le_max_left _ _
      · exact le_trans (ih xs hmem) (le_max_right _ _)

/-- Padding to at least the current length yields exactly the target
length. -/
lemma padTo_length {α : Type} (n : Nat) (p : α) (xs : List α)
    (h : xs.length ≤ n) : (padTo n p xs).length = n := by
  simp only [padTo, List.length_append, List.length_replicate]
  omega

/-- Entries below the original length are preserved by padding. -/
lemma padTo_getElem_lt {α : Type} (n : Nat) (p : α) (xs : List α)
    (i : Nat) (h : i < xs.length) : (padTo n p xs)[i]? = xs[i]? := by
  simp only [padTo]
  exact List.getElem?_append_left h

/-- Entries in the padded region are the padding value. -/
lemma padTo_getElem_pad {α : Type} (n : Nat) (p : α) (xs : List α)
    (i : Nat) (h1 : xs.length ≤ i) (h2 : i < n) :
    (padTo n p xs)[i]? = some p := by
  simp only [padTo]
  rw [List.getElem?_append_right h1]
  rw [List.getElem?_replicate]
  rw [if_pos (by omega)]

/-- C5: every batch produced by build_dataset pads variable-length
per-image ground truth to a batch-uniform count, preserving the
original entries and filling with label sentinel -1 and the all-zero
box. -/
theorem padded_batch_sentinels (batch : List (List Int × List Box))
    (k : Nat) (orig : List Int × List Box)
    (h : batch[k]? = some orig) :
    (padded_batch batch)[k]? =
      some (padTo (maxLen (batch.map (fun p => p.1))) (-1) orig.1,
            padTo (maxLen (batch.map (fun p => p.2))) zeroBox orig.2) ∧
    (padTo (maxLen (batch.map (fun p => p.1))) (-1) orig.1).length =
      maxLen (batch.map (fun p => p.1)) ∧
    (padTo (maxLen (batch.map (fun p => p.2))) zeroBox orig.2).length =
      maxLen (batch.map (fun p => p.2)) ∧
    (∀ i, i < orig.1.length →
      (padTo (maxLen (batch.map (fun p => p.1))) (-1) orig.1)[i]? =
        orig.1[i]?) ∧
    (∀ i, orig.1.length ≤ i → i < maxLen (batch.map (fun p => p.1)) →
      (padTo (maxLen (batch.map (fun p => p.1))) (-1) orig.1)[i]? =
        some (-1)) ∧
    (∀ i, i < orig.2.length →
      (padTo (maxLen (batch.map (fun p => p.2))) zeroBox orig.2)[i]? =
        orig.2[i]?) ∧
    (∀ i, orig.2.length ≤ i → i < maxLen (batch.map (fun p => p.2)) →
      (padTo (maxLen (batch.map (fun p => p.2))) zeroBox orig.2)[i]? =
        some zeroBox) := by
  have hmem : orig ∈ batch := by
    rcases List.getElem?_eq_some_iff.mp h with ⟨hk, hget⟩
    exact hget ▸ List.getElem_mem hk
  have h1 : orig.1.length ≤ maxLen (batch.map (fun p => p.1)) :=
    mem_le_maxLen _ _ (List.mem_map.mpr ⟨orig, hmem, rfl⟩)
  have h2 : orig.2.length ≤ maxLen (batch.map (fun p => p.2)) :=
    mem_le_maxLen _ _ (List.mem_map.mpr ⟨orig, hmem, rfl⟩)
  refine ⟨?_, padTo_length _ _ _ h1, padTo_length _ _ _ h2,
    fun i hi => padTo_getElem_lt _ _ _ i hi,
    fun i hi hi2 => padTo_getElem_pad _ _ _ i hi hi2,
    fun i hi => padTo_getElem_lt _ _ _ i hi,
    fun i hi hi2 => padTo_getElem_pad _ _ _ i hi hi2⟩
  simp only [padded_batch, List.getElem?_map, h]
  rfl

/-- Witness for C5: in a two-image batch whose second image has no
objects, the padded second image carries the sentinel label -1 and the
zero box at position 0. -/
theorem padded_batch_sentinels_witness :
    ([([(0 : Int)], [(⟨0, 0, 1, 1⟩ : Box)]), ([], [])][1]? =
      some (([] : List Int), ([] : List Box))) ∧
    (padTo (maxLen [[(0 : Int)], []]) (-1) ([] : List Int))[0]? =
      some (-1) ∧
    (padTo (maxLen [[(⟨0, 0, 1, 1⟩ : Box)], []]) zeroBox
      ([] : List Box))[0]? = some zeroBox := by
  refine ⟨rfl, ?_, ?_⟩
  · exact (padded_batch_sentinels
      [([(0 : Int)], [(⟨0, 0, 1, 1⟩ : Box)]), ([], [])] 1 ([], [])
      rfl).2.2.2.2.1 0 (by decide) (by decide)
  · exact (padded_batch_sentinels
      [([(0 : Int)], [(⟨0, 0, 1, 1⟩ : Box)]), ([], [])] 1 ([], [])
      rfl).2.2.2.2.2.2 0 (by decide) (by decide)

/-- An element surviving a mask computed from its own list satisfies
the mask predicate. -/
lemma booleanMask_self_prop {α : Type} (p : α → Bool) :
    ∀ (xs : List α), ∀ x ∈ booleanMask xs (xs.map p), p x = true := by
  intro xs
  induction xs with
  | nil => intro x hx; simp [booleanMask] at hx
  | cons a l ih =>
      intro x hx
      simp only [booleanMask, List.map_cons, List.zip_cons_cons,
        List.filterMap_cons] at hx
      cases hpa : p a with
      | true =>
          rw [hpa] at hx
          rw [if_pos rfl] at hx
          rcases List.mem_cons.mp hx with rfl | hmem
          · exact hpa
          · exact ih x hmem
      | false =>
          rw [hpa] at hx
          rw [if_neg Bool.false_ne_true] at hx
          exact ih x hx

/-- Every record the annotation loop builds takes its category from
some row. -/
lemma buildAnnots_category_mem (image_id : Nat) :
    ∀ (annot_id : Nat) (rows : List (List ℚ × ℚ × Int)),
    ∀ a ∈ buildAnnots image_id annot_id rows,
      ∃ r ∈ rows, a.category_id = r.2.2 := by
  intro annot_id rows
  induction rows generalizing annot_id with
  | nil => intro a ha; simp [buildAnnots] at ha
  | cons r rest ih =>
      intro a ha
      obtain ⟨cb, ar, l⟩ := r
      simp only [buildAnnots] at ha
      rcases List.mem_cons.mp ha with rfl | hmem
      · exact ⟨(cb, ar, l), List.mem_cons_self _ _, rfl⟩
      · rcases ih (annot_id + 1) a hmem with ⟨r, hr, hcat⟩
        exact ⟨r, List.mem_cons_of_mem _ hr, hcat⟩

/-- Every annotation record _COCO_gt_annot emits carries one of the
input labels as its category. -/
lemma gt_annot_category_mem (image_id annot_id : Nat)
    (shape : Nat × Nat) (labels : List Int) (bboxes : List Box) :
    ∀ a ∈ (_COCO_gt_annot image_id annot_id shape labels bboxes).2,
      a.category_id ∈ labels := by
  intro a ha
  simp only [_COCO_gt_annot] at ha
  rcases buildAnnots_category_mem image_id annot_id _ a ha with
    ⟨r, hr, hcat⟩
  obtain ⟨cb, ar, l⟩ := r
  have h2 := (List.of_mem_zip hr).2
  have h3 := (List.of_mem_zip h2).2
  rw [hcat]
  exact h3

/-- C6: in evaluate, padded ground-truth entries (label -1) are masked
out before COCO annotations are built, so no accumulated ground-truth
annotation carries the padding category -1. -/
theorem eval_gt_no_padding (shape : Nat × Nat)
    (recs : List ImageRecord) :
    ∀ a ∈ (evaluateLoop shape recs).gt_annots, a.category_id ≠ -1 := by
  suffices h : ∀ st : EvalState,
      (∀ a ∈ st.gt_annots, a.category_id ≠ -1) →
      ∀ a ∈ (recs.foldl (processImage shape) st).gt_annots,
        a.category_id ≠ -1 by
    exact h initState (by simp [initState])
  induction recs with
  | nil => intro st hst; exact hst
  | cons r rs ih =>
      intro st hst
      simp only [List.foldl_cons]
      apply ih
      intro a ha
      simp only [processImage] at ha
      rcases List.mem_append.mp ha with h1 | h2
      · exact hst a h1
      · have hcat := gt_annot_category_mem _ _ _ _ _ a h2
        have hp := booleanMask_self_prop
          (fun l => decide (l ≠ -1)) r.gt_labels _ hcat
        simpa using hp

/-- Witness for C6 on a concrete run: one image whose ground truth is
the real label 0 plus a padding entry; the surviving annotation has
category 0, not -1. -/
theorem eval_gt_no_padding_witness :
    (⟨1, 1, [0, 0, 1, 1], 0, 1, 0⟩ : COCOAnnot) ∈
      (evaluateLoop (8, 8)
        [⟨[0, -1], [⟨0, 0, 1, 1⟩, zeroBox], [], [], []⟩]).gt_annots ∧
    (⟨1, 1, [0, 0, 1, 1], 0, 1, 0⟩ : COCOAnnot).category_id ≠ -1 := by
  have hmem : (⟨1, 1, [0, 0, 1, 1], 0, 1, 0⟩ : COCOAnnot) ∈
      (evaluateLoop (8, 8)
        [⟨[0, -1], [⟨0, 0, 1, 1⟩, zeroBox], [], [], []⟩]).gt_annots := by
    simp only [evaluateLoop, List.foldl_cons, List.foldl_nil,
      processImage, initState, booleanMask, _COCO_gt_annot, cocoBboxes,
      zeroBox]
    norm_num [buildAnnots, transpose4]
  exact ⟨hmem,
    eval_gt_no_padding (8, 8)
      [⟨[0, -1], [⟨0, 0, 1, 1⟩, zeroBox], [], [], []⟩] _ hmem⟩

/-- C8: an image with an empty prediction list is a valid, non-error
state of evaluate: it contributes no result records, its ground truth
is still recorded, and the loop proceeds to the next image id. -/
theorem eval_empty_predictions_ok (shape : Nat × Nat) (st : EvalState)
    (r : ImageRecord) (h : r.pred_labels = []) :
    (processImage shape st r).results = st.results ∧
    (processImage shape st r).image_id = st.image_id + 1 ∧
    (processImage shape st r).gt_images =
      st.gt_images ++ [⟨st.image_id, shape.1, shape.2⟩] := by
  refine ⟨?_, rfl, rfl⟩
  simp [processImage, h]

/-- Witness for C8: a record with no detections leaves the result set
of the initial state untouched and advances the image id. -/
theorem eval_empty_predictions_ok_witness :
    (⟨[0], [⟨0, 0, 1, 1⟩], [], [], []⟩ : ImageRecord).pred_labels =
      [] ∧
    ((processImage (8, 8) initState
        ⟨[0], [⟨0, 0, 1, 1⟩], [], [], []⟩).results = initState.results ∧
     (processImage (8, 8) initState
        ⟨[0], [⟨0, 0, 1, 1⟩], [], [], []⟩).image_id =
       initState.image_id + 1 ∧
     (processImage (8, 8) initState
        ⟨[0], [⟨0, 0, 1, 1⟩], [], [], []⟩).gt_images =
       initState.gt_images ++ [⟨initState.image_id, 8, 8⟩]) :=
  ⟨rfl, eval_empty_predictions_ok (8, 8) initState
    ⟨[0], [⟨0, 0, 1, 1⟩], [], [], []⟩ rfl⟩

/-- The ids of the records built by the annotation loop are consecutive
from the starting id. -/
lemma buildAnnots_map_id (image_id : Nat) :
    ∀ (annot_id : Nat) (rows : List (List ℚ × ℚ × Int)),
    (buildAnnots image_id annot_id rows).map (fun a => a.id) =
      List.range' annot_id rows.length := by
  intro annot_id rows
  induction rows generalizing annot_id with
  | nil => rfl
  | cons r rest ih =>
      obtain ⟨cb, ar, l⟩ := r
      simp only [buildAnnots, List.map_cons, List.length_cons,
        List.range'_succ]
      exact congrArg _ (ih (annot_id + 1))

/-- The annotation loop emits one record per row. -/
lemma buildAnnots_length (image_id : Nat) :
    ∀ (annot_id : Nat) (rows : List (List ℚ × ℚ × Int)),
    (buildAnnots image_id annot_id rows).length = rows.length := by
  intro annot_id rows
  induction rows generalizing annot_id with
  | nil => rfl
  | cons r rest ih =>
      obtain ⟨cb, ar, l⟩ := r
      simp only [buildAnnots, List.length_cons]
      exact congrArg _ (ih (annot_id + 1))

/-- C9: across the whole evaluation run, ground-truth annotation ids
are exactly 1, 2, ... in order: _COCO_gt_annot assigns consecutive ids
from the annot_id it receives and evaluate advances annot_id by the
number of annotations emitted, so every id from 1 up occurs exactly
once. -/
theorem eval_annot_ids_unique (shape : Nat × Nat)
    (recs : List ImageRecord) :
    (evaluateLoop shape recs).gt_annots.map (fun a => a.id) =
      List.range' 1 (evaluateLoop shape recs).gt_annots.length ∧
    (evaluateLoop shape recs).annot_id =
      (evaluateLoop shape recs).gt_annots.length + 1 := by
  suffices h : ∀ st : EvalState,
      (st.gt_annots.map (fun a => a.id) =
        List.range' 1 st.gt_annots.length ∧
       st.annot_id = st.gt_annots.length + 1) →
      ((recs.foldl (processImage shape) st).gt_annots.map
          (fun a => a.id) =
        List.range' 1
          (recs.foldl (processImage shape) st).gt_annots.length ∧
       (recs.foldl (processImage shape) st).annot_id =
        (recs.foldl (processImage shape) st).gt_annots.length + 1) by
    exact h initState ⟨rfl, rfl⟩
  induction recs with
  | nil => intro st hst; exact hst
  | cons r rs ih =>
      intro st hst
      obtain ⟨hids, haid⟩ := hst
      simp only [List.foldl_cons]
      apply ih
      constructor
      · simp only [processImage, _COCO_gt_annot, List.map_append,
          List.length_append, hids, buildAnnots_map_id,
          buildAnnots_length, haid]
        have := List.range'_append_1 1 st.gt_annots.length
          (((cocoBboxes (booleanMask r.gt_boxes
              (r.gt_labels.map (fun l => decide (l ≠ -1))))).zip
            (((booleanMask r.gt_boxes
              (r.gt_labels.map (fun l => decide (l ≠ -1)))).map
                (fun b => (b.y2 - b.y1) * (b.x2 - b.x1))).zip
              (booleanMask r.gt_labels
                (r.gt_labels.map (fun l => decide (l ≠ -1)))))).length)
        rw [Nat.add_comm 1 st.gt_annots.length] at this
        rw [this]
        rw [Nat.add_comm]
      · simp only [processImage, _COCO_gt_annot, List.length_append,
          buildAnnots_length, haid]
        omega

/-- A box lies inside the image bounds: x coordinates within
[0, width], y coordinates within [0, height]; image_size is (h, w). -/
def boxInBounds (b : Box) (image_size : Nat × Nat) : Prop :=
  0 ≤ b.x1 ∧ b.x1 ≤ (image_size.2 : ℚ) ∧
  0 ≤ b.y1 ∧ b.y1 ≤ (image_size.1 : ℚ) ∧
  0 ≤ b.x2 ∧ b.x2 ≤ (image_size.2 : ℚ) ∧
  0 ≤ b.y2 ∧ b.y2 ≤ (image_size.1 : ℚ)

/-- Every output of clip_boxes lies inside the image bounds. -/
lemma clip_boxes_inBounds (boxes : List Box) (image_size : Nat × Nat) :
    ∀ b ∈ clip_boxes boxes image_size, boxInBounds b image_size := by
  intro b hb
  simp only [clip_boxes, List.mem_map] at hb
  obtain ⟨c, hc, rfl⟩ := hb
  have hw : (0 : ℚ) ≤ (image_size.2 : ℚ) := Nat.cast_nonneg _
  have hh : (0 : ℚ) ≤ (image_size.1 : ℚ) := Nat.cast_nonneg _
  exact ⟨le_min (le_max_right _ _) hw, min_le_right _ _,
         le_min (le_max_right _ _) hh, min_le_right _ _,
         le_min (le_max_right _ _) hw, min_le_right _ _,
         le_min (le_max_right _ _) hh, min_le_right _ _⟩

/-- Mapping a stage over the first zip and zipping a third list equals
one zip running all three stages per element. -/
lemma zip_pipeline_eq {α β γ δ ε : Type} (f : α → β → γ) (g : γ → γ)
    (nm : γ → δ → ε) :
    ∀ (as : List α) (bs : List β) (cs : List δ),
    List.zipWith nm ((List.zipWith f as bs).map g) cs =
      List.zipWith (fun a p => nm (g (f a p.1)) p.2) as (bs.zip cs) := by
  intro as
  induction as with
  | nil => intro bs cs; rfl
  | cons a as ih =>
      intro bs cs
      cases bs with
      | nil => rfl
      | cons b bs =>
          cases cs with
          | nil => rfl
          | cons c cs =>
              simp only [List.zipWith_cons_cons, List.map_cons,
                List.zip_cons_cons]
              exact congrArg _ (ih bs cs)

/-- C3: at inference (training = false) EfficientDet.call decodes the
predicted deltas against the anchors, then clips the decoded boxes into
the image bounds, then applies NMS, in exactly that order — so every
box handed to NMS lies inside the image — while the training branch
returns the raw concatenated head outputs with no clipping. -/
theorem inference_decode_clip_nms_order
    (expQ sq : ℚ → ℚ) (sizes ratios strides : List ℚ)
    (iou_thr score_thr : ℚ) (num_classes : Nat)
    (featShapes : List (Nat × Nat))
    (headDeltas : List (List (List Delta)))
    (headScores : List (List (List (List ℚ))))
    (imageSize : Nat × Nat) :
    EfficientDet_call expQ sq sizes ratios strides iou_thr score_thr
        num_classes false featShapes headDeltas headScores imageSize =
      CallOut.infer (List.zipWith
        (fun a p => nms iou_thr score_thr num_classes
          (clip_boxes (regress_bndboxes expQ a p.1) imageSize) p.2)
        (callTiledAnchors sq sizes ratios strides featShapes
          (headDeltas.map List.flatten).length)
        ((headDeltas.map List.flatten).zip
          (headScores.map List.flatten))) ∧
    (∀ (anch : List Box) (dl : List Delta),
      ∀ b ∈ clip_boxes (regress_bndboxes expQ anch dl) imageSize,
        boxInBounds b imageSize) ∧
    EfficientDet_call expQ sq sizes ratios strides iou_thr score_thr
        num_classes true featShapes headDeltas headScores imageSize =
      CallOut.train (headDeltas.map List.flatten)
        (headScores.map List.flatten) := by
  refine ⟨?_, fun anch dl => clip_boxes_inBounds _ _, rfl⟩
  simp only [EfficientDet_call, Bool.false_eq_true, if_false]
  exact congrArg _ (zip_pipeline_eq _ _ _ _ _ _)

/-- Witness for C3 at a concrete input: with constant exponential, one
anchor (0, 0, 2, 2), zero deltas and image size 1 by 1, the decoded box
is clipped to (0, 0, 1, 1), which lies inside the image. -/
theorem inference_decode_clip_nms_order_witness :
    (⟨0, 0, 1, 1⟩ : Box) ∈
      clip_boxes (regress_bndboxes (fun _ => 1) [⟨0, 0, 2, 2⟩]
        [⟨0, 0, 0, 0⟩]) (1, 1) ∧
    boxInBounds ⟨0, 0, 1, 1⟩ (1, 1) := by
  have hmem : (⟨0, 0, 1, 1⟩ : Box) ∈
      clip_boxes (regress_bndboxes (fun _ => 1) [⟨0, 0, 2, 2⟩]
        [⟨0, 0, 0, 0⟩]) (1, 1) := by
    simp only [regress_bndboxes, List.zipWith_cons_cons,
      List.zipWith_nil_right, clip_boxes, List.map_cons, List.map_nil,
      List.mem_singleton]
    norm_num
  exact ⟨hmem,
    (inference_decode_clip_nms_order (fun _ => 1) (fun _ => 1)
      [] [] [] 0 0 0 [] [] [] (1, 1)).2.1
      [⟨0, 0, 2, 2⟩] [⟨0, 0, 0, 0⟩] ⟨0, 0, 1, 1⟩ hmem⟩

/-- C4: the anchors of the inference branch come from the five
per-level generators (levels 3 through 7), concatenated into one flat
list for the image, and that identical list is tiled unchanged across
every element of the batch. -/
theorem anchors_concat_and_tiled (sq : ℚ → ℚ)
    (sizes ratios strides : List ℚ) (featShapes : List (Nat × Nat))
    (batch : Nat) :
    (anchors_gen sizes ratios strides).length = 5 ∧
    callAnchors sq sizes ratios strides featShapes =
      (((anchors_gen sizes ratios strides).zip featShapes).map
        (fun p => p.1.generate sq p.2)).flatten ∧
    (callTiledAnchors sq sizes ratios strides featShapes batch).length =
      batch ∧
    (∀ i, i < batch →
      (callTiledAnchors sq sizes ratios strides featShapes batch)[i]? =
        some (callAnchors sq sizes ratios strides featShapes)) := by
  refine ⟨rfl, rfl, List.length_replicate _ _, ?_⟩
  intro i hi
  simp only [callTiledAnchors, List.getElem?_replicate, if_pos hi]

/-- Witness for C4: in a batch of two, element 0 carries exactly the
single-image anchor list. -/
theorem anchors_concat_and_tiled_witness :
    0 < 2 ∧
    (callTiledAnchors (fun _ => 1) [] [] [] [] 2)[0]? =
      some (callAnchors (fun _ => 1) [] [] [] []) :=
  ⟨by decide,
   (anchors_concat_and_tiled (fun _ => 1) [] [] [] [] 2).2.2.2 0
     (by decide)⟩

end EffDet
